import Mathlib

/-!
Verification development for the `grove` repository: a canonical DAG-CBOR
encoder/decoder (`cbor/encode.go`, `cbor/decode.go`) and a CID module
(`cid/cid.go`, `cid/cidlink.go`).  Go byte slices are modelled as `List Nat`
(each element intended `< 256`), Go strings as their byte sequences
(`List Nat` of byte values), machine integers as `Nat`/`Int` with explicit
wrap-around where the source can overflow, and Go's `(value, error)` multiple
returns as `Except`/product types mirroring exactly which values the source
returns on each path.
-/

instance {ε α : Type} [DecidableEq ε] [DecidableEq α] : DecidableEq (Except ε α)
  | .ok a, .ok b =>
    if h : a = b then .isTrue (by rw [h]) else .isFalse (by intro he; cases he; exact h rfl)
  | .error a, .error b =>
    if h : a = b then .isTrue (by rw [h]) else .isFalse (by intro he; cases he; exact h rfl)
  | .ok _, .error _ => .isFalse (by intro he; cases he)
  | .error _, .ok _ => .isFalse (by intro he; cases he)

namespace Grove

/-! ## Byte-level utilities (big-endian, as in `encoding/binary.BigEndian`) -/

/-- The two big-endian bytes of a 16-bit value (`binary.BigEndian.PutUint16`). -/
def be2 (n : Nat) : List Nat := [n / 2 ^ 8 % 256, n % 256]

/-- The four big-endian bytes of a 32-bit value (`binary.BigEndian.PutUint32`). -/
def be4 (n : Nat) : List Nat :=
  [n / 2 ^ 24 % 256, n / 2 ^ 16 % 256, n / 2 ^ 8 % 256, n % 256]

/-- The eight big-endian bytes of a 64-bit value (`binary.BigEndian.PutUint64`). -/
def be8 (n : Nat) : List Nat :=
  [n / 2 ^ 56 % 256, n / 2 ^ 48 % 256, n / 2 ^ 40 % 256, n / 2 ^ 32 % 256,
   n / 2 ^ 24 % 256, n / 2 ^ 16 % 256, n / 2 ^ 8 % 256, n % 256]

/-- Big-endian reconstruction of two bytes (`binary.BigEndian.Uint16`). -/
def beNat2 (a b : Nat) : Nat := a * 2 ^ 8 + b

/-- Big-endian reconstruction of four bytes (`binary.BigEndian.Uint32`). -/
def beNat4 (a b c d : Nat) : Nat := a * 2 ^ 24 + b * 2 ^ 16 + c * 2 ^ 8 + d

/-- Big-endian reconstruction of eight bytes (`binary.BigEndian.Uint64`). -/
def beNat8 (a b c d e f g h : Nat) : Nat :=
  a * 2 ^ 56 + b * 2 ^ 48 + c * 2 ^ 40 + d * 2 ^ 32 +
  e * 2 ^ 24 + f * 2 ^ 16 + g * 2 ^ 8 + h

/-- Go's conversion `int64(u)` of a `uint64`: two's-complement reinterpretation. -/
def toInt64 (n : Nat) : Int := if n < 2 ^ 63 then (n : Int) else (n : Int) - 2 ^ 64

/-- Model of `bytes.Compare`: lexicographic comparison of byte slices, a shorter strict
prefix comparing less. -/
def listCompare : List Nat → List Nat → Ordering
  | [], [] => .eq
  | [], _ :: _ => .lt
  | _ :: _, [] => .gt
  | a :: as_, b :: bs =>
    if a < b then .lt else if b < a then .gt else listCompare as_ bs

/-! ## UTF-8 validity (`unicode/utf8.Valid`)

Byte-level validity per RFC 3629: 1-4 byte sequences, overlong encodings,
surrogates and values above U+10FFFF rejected — exactly what Go enforces. -/

/-- Is `b` a UTF-8 continuation byte (`0x80..0xBF`)? -/
def isCont (b : Nat) : Bool := 0x80 ≤ b && b ≤ 0xbf

/-- Model of `unicode/utf8.Valid` on a byte sequence. -/
def utf8Valid : List Nat → Bool
  | [] => true
  | b :: t =>
    if b < 0x80 then utf8Valid t
    else if b < 0xc2 then false
    else if b ≤ 0xdf then
      match t with
      | c :: t2 => isCont c && utf8Valid t2
      | _ => false
    else if b ≤ 0xef then
      match t with
      | c :: d :: t2 =>
        let lo : Nat := if b = 0xe0 then 0xa0 else 0x80
        let hi : Nat := if b = 0xed then 0x9f else 0xbf
        (lo ≤ c && c ≤ hi) && isCont d && utf8Valid t2
      | _ => false
    else if b ≤ 0xf4 then
      match t with
      | c :: d :: e :: t2 =>
        let lo : Nat := if b = 0xf0 then 0x90 else 0x80
        let hi : Nat := if b = 0xf4 then 0x8f else 0xbf
        (lo ≤ c && c ≤ hi) && isCont d && isCont e && utf8Valid t2
      | _ => false
    else false

/-! ## Base32 (Go `encoding/base32`, unpadded)

The CID module builds its codec with
`base32.NewEncoding("abcdefghijklmnopqrstuvwxyz234567").WithPadding(base32.NoPadding)`.
We model RFC 4648 base32 at the bit level: encoding turns bytes into a
big-endian bit stream, zero-pads to a multiple of five bits and maps each
5-bit group through the alphabet; decoding (Go `DecodeString`) first strips
CR/LF bytes, rejects lengths that are 1, 3 or 6 mod 8, maps characters back
through the alphabet (rejecting foreign characters) and keeps the first
`floor(5n/8)` bytes of the bit stream, ignoring leftover bits. -/

/-- The eight bits of a byte, most significant first. -/
def byteBits (b : Nat) : List Bool :=
  [decide (b / 128 % 2 = 1), decide (b / 64 % 2 = 1), decide (b / 32 % 2 = 1),
   decide (b / 16 % 2 = 1), decide (b / 8 % 2 = 1), decide (b / 4 % 2 = 1),
   decide (b / 2 % 2 = 1), decide (b % 2 = 1)]

/-- A byte sequence as a big-endian bit stream. -/
def bytesToBits : List Nat → List Bool
  | [] => []
  | b :: t => byteBits b ++ bytesToBits t

/-- Reassemble one byte from eight bits. -/
def bitsToByte (a b c d e f g h : Bool) : Nat :=
  128 * (cond a 1 0) + 64 * (cond b 1 0) + 32 * (cond c 1 0) + 16 * (cond d 1 0) +
  8 * (cond e 1 0) + 4 * (cond f 1 0) + 2 * (cond g 1 0) + (cond h 1 0)

/-- Reassemble a bit stream into bytes, eight bits at a time; a final group of
fewer than eight bits is dropped. -/
def bitsToBytes : List Bool → List Nat
  | a :: b :: c :: d :: e :: f :: g :: h :: t => bitsToByte a b c d e f g h :: bitsToBytes t
  | _ => []

/-- The value of a 5-bit group. -/
def v5 (a b c d e : Bool) : Nat :=
  16 * (cond a 1 0) + 8 * (cond b 1 0) + 4 * (cond c 1 0) + 2 * (cond d 1 0) + (cond e 1 0)

/-- Split a bit stream (whose length is a multiple of five) into 5-bit values. -/
def exactVals : List Bool → List Nat
  | a :: b :: c :: d :: e :: t => v5 a b c d e :: exactVals t
  | _ => []

/-- The five bits of a 5-bit value, most significant first. -/
def valBits5 (v : Nat) : List Bool :=
  [decide (v / 16 % 2 = 1), decide (v / 8 % 2 = 1), decide (v / 4 % 2 = 1),
   decide (v / 2 % 2 = 1), decide (v % 2 = 1)]

/-- Turn 5-bit values back into a bit stream. -/
def valsToBits : List Nat → List Bool
  | [] => []
  | v :: t => valBits5 v ++ valsToBits t

/-- The alphabet `"abcdefghijklmnopqrstuvwxyz234567"` used by the CID module's
base32 codec (byte values). -/
def alphaRfc : List Nat :=
  [97, 98, 99, 100, 101, 102, 103, 104, 105, 106, 107, 108, 109, 110, 111, 112,
   113, 114, 115, 116, 117, 118, 119, 120, 121, 122, 50, 51, 52, 53, 54, 55]

/-- The character for a 5-bit value under the CID alphabet. -/
def charOfRfc (v : Nat) : Nat := alphaRfc.getD v 0

/-- Index of a byte in an alphabet (none if absent): Go's decode map. -/
def alphaIdx : List Nat → Nat → Option Nat
  | [], _ => none
  | x :: t, c => if x = c then some 0 else (alphaIdx t c).map (· + 1)

/-- Map every character of a base32 text through an alphabet, failing on a
foreign character. -/
def idxAll (alpha : List Nat) : List Nat → Option (List Nat)
  | [] => some []
  | c :: t =>
    match alphaIdx alpha c, idxAll alpha t with
    | some v, some vs => some (v :: vs)
    | _, _ => none

/-- Unpadded base32 encoding over a given alphabet (`Encoding.EncodeToString`). -/
def b32EncodeWith (alpha : List Nat) (bs : List Nat) : List Nat :=
  (exactVals (bytesToBits bs ++
    List.replicate ((5 - bs.length * 8 % 5) % 5) false)).map (fun v => alpha.getD v 0)

/-- Base32 decoding of an already-stripped text: leftover lengths 1/3/6
rejected, foreign characters rejected, trailing bits ignored, keeping the
first `floor(5n/8)` bytes. -/
def b32DecodeStripped (alpha t : List Nat) : Option (List Nat) :=
  if t.length % 8 = 1 ∨ t.length % 8 = 3 ∨ t.length % 8 = 6 then none
  else
    match idxAll alpha t with
    | none => none
    | some vals => some (bitsToBytes ((valsToBits vals).take (t.length * 5 / 8 * 8)))

/-- Unpadded base32 decoding over a given alphabet (`Encoding.DecodeString`):
CR/LF bytes stripped first, then decoded. -/
def b32DecodeWith (alpha : List Nat) (s : List Nat) : Option (List Nat) :=
  b32DecodeStripped alpha (s.filter (fun c => !(c == 13) && !(c == 10)))

/-- Model of `b32Encoding.EncodeToString` of the CID module. -/
def b32Encode (bs : List Nat) : List Nat := b32EncodeWith alphaRfc bs

/-- Model of `b32Encoding.DecodeString` of the CID module. -/
def b32Decode (s : List Nat) : Option (List Nat) := b32DecodeWith alphaRfc s

/-! ## CID module (`cid/cid.go`) -/

/-- Error kinds of the CID module, one per `errors.New` site. -/
inductive CidErr where
  | invalidFormat
  | invalidLength
  | b32Corrupt
  | tooShort
  | badVersion
  | badCodec
  | badHashType
  | badDigestSize
  | trailingBytes
  | badDigestLen
  deriving DecidableEq, Repr

/-- A Content Identifier, mirroring `type Cid struct` of the source. -/
structure Cid where
  version : Nat
  codec : Nat
  hashType : Nat
  digest : List Nat
  bytes : List Nat
  deriving DecidableEq, Repr

/-- Model of `cid.decode`: validate and split the raw byte encoding of a CID. -/
def cidDecode (bs : List Nat) : Except CidErr Cid :=
  match bs with
  | v :: cdc :: ht :: ds :: rest =>
    if v ≠ 1 then .error .badVersion
    else if cdc ≠ 0x55 ∧ cdc ≠ 0x71 then .error .badCodec
    else if ht ≠ 0x12 then .error .badHashType
    else if ds ≠ 32 ∧ ds ≠ 0 then .error .badDigestSize
    else if bs.length < 4 + ds then .error .tooShort
    else if rest.drop ds ≠ [] then .error .trailingBytes
    else .ok ⟨1, cdc, ht, rest.take ds, bs.take (4 + ds)⟩
  | _ => .error .tooShort

/-- Model of `cid.Parse`: parse the text form of a CID. -/
def cidParse (s : List Nat) : Except CidErr Cid :=
  if s.length < 2 ∨ s.head? ≠ some 98 then .error .invalidFormat
  else if s.length ≠ 59 ∧ s.length ≠ 8 then .error .invalidLength
  else
    match b32Decode (s.drop 1) with
    | none => .error .b32Corrupt
    | some bs => cidDecode bs

/-- Model of `cid.Create`: build a CID from a codec and content bytes (digest is the
SHA-256 of the content, declared after the SHA-256 model below). -/
def cidCreateWith (digest : List Nat) (codec : Nat) : Except CidErr Cid :=
  if codec ≠ 0x55 ∧ codec ≠ 0x71 then .error .badCodec
  else if digest.length ≠ 32 then .error .badDigestLen
  else .ok ⟨1, codec, 0x12, digest, [1, codec, 0x12, 32] ++ digest⟩

/-- Model of `Cid.String`: the canonical text form `'b' + base32(bytes)`. -/
def cidStr (c : Cid) : List Nat := 98 :: b32Encode c.bytes

/-- Model of `CidLink.String` (from `cid/cidlink.go`): `'b' + base32(link bytes)`. -/
def cidLinkStr (bs : List Nat) : List Nat := 98 :: b32Encode bs

/-! ## SHA-256 (`crypto/sha256.Sum256`)

Straightforward FIPS 180-4 implementation over `Nat` with explicit reduction
modulo `2 ^ 32`, used by `cid.Create`. -/

/-- Right rotation on 32 bits. -/
def rotr (k n : Nat) : Nat := n / 2 ^ k + n % 2 ^ k * 2 ^ (32 - k)

/-- Big sigma 0. -/
def bsig0 (n : Nat) : Nat := Nat.xor (Nat.xor (rotr 2 n) (rotr 13 n)) (rotr 22 n)

/-- Big sigma 1. -/
def bsig1 (n : Nat) : Nat := Nat.xor (Nat.xor (rotr 6 n) (rotr 11 n)) (rotr 25 n)

/-- Small sigma 0. -/
def ssig0 (n : Nat) : Nat := Nat.xor (Nat.xor (rotr 7 n) (rotr 18 n)) (n / 2 ^ 3)

/-- Small sigma 1. -/
def ssig1 (n : Nat) : Nat := Nat.xor (Nat.xor (rotr 17 n) (rotr 19 n)) (n / 2 ^ 10)

/-- Choice function: `(x AND y) XOR ((NOT x) AND z)` on 32 bits. -/
def chf (x y z : Nat) : Nat := Nat.xor (Nat.land x y) (Nat.land (4294967295 - x % 2 ^ 32) z)

/-- Majority function. -/
def majf (x y z : Nat) : Nat :=
  Nat.xor (Nat.xor (Nat.land x y) (Nat.land x z)) (Nat.land y z)

/-- The SHA-256 round constants (FIPS 180-4, in decimal). -/
def shaK : List Nat :=
  [1116352408, 1899447441, 3049323471, 3921009573, 961987163,
   1508970993, 2453635748, 2870763221, 3624381080, 310598401,
   607225278, 1426881987, 1925078388, 2162078206, 2614888103,
   3248222580, 3835390401, 4022224774, 264347078, 604807628,
   770255983, 1249150122, 1555081692, 1996064986, 2554220882,
   2821834349, 2952996808, 3210313671, 3336571891, 3584528711,
   113926993, 338241895, 666307205, 773529912, 1294757372,
   1396182291, 1695183700, 1986661051, 2177026350, 2456956037,
   2730485921, 2820302411, 3259730800, 3345764771, 3516065817,
   3600352804, 4094571909, 275423344, 430227734, 506948616,
   659060556, 883997877, 958139571, 1322822218, 1537002063,
   1747873779, 1955562222, 2024104815, 2227730452, 2361852424,
   2428436474, 2756734187, 3204031479, 3329325298]

/-- The SHA-256 initial hash value (FIPS 180-4, in decimal). -/
def shaH0 : List Nat :=
  [1779033703, 3144134277, 1013904242, 2773480762,
   1359893119, 2600822924, 528734635, 1541459225]

/-- Pack bytes into big-endian 32-bit words, four at a time. -/
def toWords : List Nat → List Nat
  | a :: b :: c :: d :: t => beNat4 a b c d :: toWords t
  | _ => []

/-- One message-schedule extension step: append
`ssig1 W[n-2] + W[n-7] + ssig0 W[n-15] + W[n-16] mod 2^32`. -/
def schedStep (ws : List Nat) : List Nat :=
  let n := ws.length
  ws ++ [(ssig1 (ws.getD (n - 2) 0) + ws.getD (n - 7) 0 +
          ssig0 (ws.getD (n - 15) 0) + ws.getD (n - 16) 0) % 2 ^ 32]

/-- Iterate the message-schedule extension. -/
def schedule : Nat → List Nat → List Nat
  | 0, ws => ws
  | k + 1, ws => schedule k (schedStep ws)

/-- One compression round on the working state `[a,b,c,d,e,f,g,h]`. -/
def roundStep (st : List Nat) (kw : Nat × Nat) : List Nat :=
  let a := st.getD 0 0
  let b := st.getD 1 0
  let c := st.getD 2 0
  let d := st.getD 3 0
  let e := st.getD 4 0
  let f := st.getD 5 0
  let g := st.getD 6 0
  let h := st.getD 7 0
  let t1 := (h + bsig1 e + chf e f g + kw.1 + kw.2) % 2 ^ 32
  let t2 := (bsig0 a + majf a b c) % 2 ^ 32
  [(t1 + t2) % 2 ^ 32, a, b, c, (d + t1) % 2 ^ 32, e, f, g]

/-- Process one 64-byte block. -/
def shaBlock (h : List Nat) (block : List Nat) : List Nat :=
  let w := schedule 48 (toWords block)
  let st := (shaK.zip w).foldl roundStep h
  (h.zip st).map (fun p => (p.1 + p.2) % 2 ^ 32)

/-- Cut a padded message into `n` blocks of 64 bytes. -/
def shaChunks : Nat → List Nat → List (List Nat)
  | 0, _ => []
  | n + 1, l => l.take 64 :: shaChunks n (l.drop 64)

/-- The SHA-256 padding of a message. -/
def shaPad (msg : List Nat) : List Nat :=
  msg ++ 0x80 :: List.replicate ((64 - (msg.length + 9) % 64) % 64) 0 ++ be8 (msg.length * 8)

/-- The four big-endian bytes of a 32-bit word. -/
def wordBytes (w : Nat) : List Nat := be4 w

/-- Model of `sha256.Sum256` of a byte sequence. -/
def sha256 (msg : List Nat) : List Nat :=
  let padded := shaPad msg
  let hs := (shaChunks (padded.length / 64) padded).foldl shaBlock shaH0
  (hs.map wordBytes).flatten

/-- Model of `cid.Create codec value`. -/
def cidCreate (codec : Nat) (value : List Nat) : Except CidErr Cid :=
  cidCreateWith (sha256 value) codec

/-! ## CBOR encoder (`cbor/encode.go`)

The Go `State` buffer (growable byte slice plus write cursor) is abstracted as
the produced byte list: every `write*` helper appends to the buffer and never
fails on the paths the encoder takes, so the model is a pure function to the
output bytes.  Encoder input values (`any` in Go) are the closed set of types
`writeAny` switches on; Go's signed widths `int`, `int8` … `int64` all take
the identical branch bodies and are modelled by one `eInt` constructor, the
unsigned widths by `eUInt`.  A Go map's iteration order is unspecified, so
`eMap` carries the key/value pairs in the order `range` yields them. -/

mutual
inductive EVal where
  | eNull
  | eBool (b : Bool)
  | eString (s : List Nat)
  | eBytes (bs : List Nat)
  | eInt (i : Int)
  | eUInt (n : Nat)
  | eFloat (bits : Nat)
  | eArr (xs : EList)
  | eMap (ps : EPairs)
  | eCid (bs : List Nat)
  deriving DecidableEq

inductive EList where
  | nil
  | cons (x : EVal) (xs : EList)
  deriving DecidableEq

inductive EPairs where
  | nil
  | cons (k : List Nat) (v : EVal) (ps : EPairs)
  deriving DecidableEq
end

/-- Number of elements of an encoder array value (`len(v)`). -/
def EList.length : EList → Nat
  | .nil => 0
  | .cons _ xs => 1 + xs.length

/-- Number of key/value pairs of an encoder map value (`len(v)`). -/
def EPairs.length : EPairs → Nat
  | .nil => 0
  | .cons _ _ ps => 1 + ps.length

/-- Model of `State.writeTypeArgument`: a type byte with the argument in the smallest
width the encoder uses. -/
def writeTypeArgument (info arg : Nat) : List Nat :=
  if arg < 24 then [info * 32 + arg]
  else if arg < 0x100 then [info * 32 + 24, arg]
  else if arg < 0x10000 then (info * 32 + 25) :: be2 arg
  else if arg < 0x100000000 then (info * 32 + 26) :: be4 arg
  else (info * 32 + 27) :: be8 arg

/-- Model of `State.writeFloat64`: header byte `0xe0 | 27 = 0xfb` then the eight
big-endian bytes of the IEEE-754 bit pattern (`math.Float64bits`).  The model
carries the bit pattern directly. -/
def writeFloat64 (bits : Nat) : List Nat := 0xfb :: be8 bits

/-- Model of `State.writeBytes` with a given major type: length prefix then raw bytes. -/
def writeBytesMajor (info : Nat) (val : List Nat) : List Nat :=
  writeTypeArgument info val.length ++ val

/-- Model of `State.writeString`: a text string is its bytes under major type 3. -/
def writeStringCbor (s : List Nat) : List Nat := writeBytesMajor 3 s

/-- Model of `State.writeCid`: tag 42, a byte string of length `len+1`, a `0x00` prefix
byte, then the CID's raw bytes. -/
def writeCidCbor (bs : List Nat) : List Nat :=
  writeTypeArgument 6 42 ++ writeTypeArgument 2 (bs.length + 1) ++ 0x00 :: bs

mutual
/-- Model of `State.writeAny`: the canonical encoding of one value.  Note that the
`map[string]any` case writes the pairs in the order they are supplied (Go's
`range` order) — the source contains no sorting step. -/
def writeAny : EVal → List Nat
  | .eNull => [0xf6]
  | .eBool b => if b then [0xf5] else [0xf4]
  | .eString s => writeStringCbor s
  | .eBytes bs => writeBytesMajor 2 bs
  | .eInt i =>
    if i ≥ 0 then writeTypeArgument 0 i.toNat else writeTypeArgument 1 (-1 - i).toNat
  | .eUInt n => writeTypeArgument 0 n
  | .eFloat bits => writeFloat64 bits
  | .eArr xs => writeTypeArgument 4 xs.length ++ writeArr xs
  | .eMap ps => writeTypeArgument 5 ps.length ++ writeMap ps
  | .eCid bs => writeCidCbor bs

/-- The elements of an array, encoded in order. -/
def writeArr : EList → List Nat
  | .nil => []
  | .cons x xs => writeAny x ++ writeArr xs

/-- The pairs of a map, encoded in the supplied (iteration) order: each key as
a text string, then its value. -/
def writeMap : EPairs → List Nat
  | .nil => []
  | .cons k v ps => writeStringCbor k ++ writeAny v ++ writeMap ps
end

/-- Model of `cbor.Encode`: the top-level value is a map. -/
def encodeCbor (ps : EPairs) : List Nat := writeAny (.eMap ps)

/-! ## CBOR decoder (`cbor/decode.go`)

`DecodeFirst` is an iterative loop over a read cursor (`state`) and an
explicit stack of open containers.  Decoded values (`any` in Go) are modelled
by `Val`; a Go `map[string]any` result is represented as its key/value pairs
in insertion order (the decoder enforces strictly increasing keys, so the
order is canonical and determines the map).  `vFloat` carries the IEEE-754
bit pattern of the decoded `float64`.  `vOpenRef` stands for the pointer to a
still-empty open container (`*[]any` / `*map[string]any`) that the source
returns when its main loop exits with the input exhausted right after a
container was opened.  Each reader returns, on error, the error together with
the cursor state at that moment, because `DecodeFirst` reports the unconsumed
remainder `s.b[s.p:]` alongside every error. -/

inductive Val where
  | vNull
  | vBool (b : Bool)
  | vUInt (n : Nat)
  | vInt (i : Int)
  | vBytes (bs : List Nat)
  | vString (s : List Nat)
  | vFloat (bits : Nat)
  | vArr (xs : List Val)
  | vMap (ps : List (List Nat × Val))
  | vCid (bs : List Nat)
  | vOpenRef (m : Bool)

/-- Error kinds of the decoder, one per error site of `cbor/decode.go`. -/
inductive DErr where
  | emptyInput
  | endOfInput
  | endOfInputBytes
  | floatNaN
  | floatInf
  | notMinimal
  | invalidArgInfo
  | invalidUtf8
  | unsupportedTag
  | tagContentNotBytes
  | invalidSimple
  | mapKeyNotString
  | keyShorter
  | keyDuplicate
  | keyLexSmaller
  | cidLenZero
  | cidEof
  | cidBadMarker
  | cidShortLen
  | cidInvalid (e : CidErr)
  | internalBadMajor
  deriving DecidableEq, Repr

/-- The decoder's read cursor (`type state struct`). -/
structure DState where
  b : List Nat
  p : Nat
  deriving DecidableEq, Repr

/-- Model of `state.readUint8` (bounds check via `ensureRead`, then read and advance). -/
def readUint8 (st : DState) : Except (DErr × DState) (Nat × DState) :=
  if st.b.length < st.p + 1 then .error (.endOfInput, st)
  else .ok (st.b.getD st.p 0, ⟨st.b, st.p + 1⟩)

/-- Model of `state.readUint16`. -/
def readUint16 (st : DState) : Except (DErr × DState) (Nat × DState) :=
  if st.b.length < st.p + 2 then .error (.endOfInput, st)
  else .ok (beNat2 (st.b.getD st.p 0) (st.b.getD (st.p + 1) 0), ⟨st.b, st.p + 2⟩)

/-- Model of `state.readUint32`. -/
def readUint32 (st : DState) : Except (DErr × DState) (Nat × DState) :=
  if st.b.length < st.p + 4 then .error (.endOfInput, st)
  else .ok (beNat4 (st.b.getD st.p 0) (st.b.getD (st.p + 1) 0) (st.b.getD (st.p + 2) 0)
              (st.b.getD (st.p + 3) 0), ⟨st.b, st.p + 4⟩)

/-- Model of `state.readUint64`. -/
def readUint64 (st : DState) : Except (DErr × DState) (Nat × DState) :=
  if st.b.length < st.p + 8 then .error (.endOfInput, st)
  else .ok (beNat8 (st.b.getD st.p 0) (st.b.getD (st.p + 1) 0) (st.b.getD (st.p + 2) 0)
              (st.b.getD (st.p + 3) 0) (st.b.getD (st.p + 4) 0) (st.b.getD (st.p + 5) 0)
              (st.b.getD (st.p + 6) 0) (st.b.getD (st.p + 7) 0), ⟨st.b, st.p + 8⟩)

/-- Is a float64 bit pattern a NaN (`math.IsNaN`)? -/
def isNaNBits (bits : Nat) : Bool := bits / 2 ^ 52 % 2 ^ 11 = 2047 && bits % 2 ^ 52 ≠ 0

/-- Is a float64 bit pattern an infinity (`math.IsInf(val, 0)`)? -/
def isInfBits (bits : Nat) : Bool := bits / 2 ^ 52 % 2 ^ 11 = 2047 && bits % 2 ^ 52 = 0

/-- Model of `state.readFloat64`: read eight bytes, then reject NaN and infinities
(the cursor has already advanced when those checks fail, as in the source). -/
def readFloat64 (st : DState) : Except (DErr × DState) (Nat × DState) :=
  match readUint64 st with
  | .error e => .error e
  | .ok (bits, st1) =>
    if isNaNBits bits then .error (.floatNaN, st1)
    else if isInfBits bits then .error (.floatInf, st1)
    else .ok (bits, st1)

/-- Model of `state.readArgument`.  Faithful to the source's bounds: the multi-byte
minimality checks compare against `math.MaxUint8/16/32` (255, 65535,
4294967295), and a failed inner read leaves `val = 0`, so it surfaces as the
minimality error. -/
def readArgument (info : Nat) (st : DState) : Except (DErr × DState) (Nat × DState) :=
  if info < 24 then .ok (info, st)
  else if info = 24 then
    match readUint8 st with
    | .error (_, st1) => .error (.notMinimal, st1)
    | .ok (v, st1) => if v < 24 then .error (.notMinimal, st1) else .ok (v, st1)
  else if info = 25 then
    match readUint16 st with
    | .error (_, st1) => .error (.notMinimal, st1)
    | .ok (v, st1) => if v < 255 then .error (.notMinimal, st1) else .ok (v, st1)
  else if info = 26 then
    match readUint32 st with
    | .error (_, st1) => .error (.notMinimal, st1)
    | .ok (v, st1) => if v < 65535 then .error (.notMinimal, st1) else .ok (v, st1)
  else if info = 27 then
    match readUint64 st with
    | .error (_, st1) => .error (.notMinimal, st1)
    | .ok (v, st1) => if v < 4294967295 then .error (.notMinimal, st1) else .ok (v, st1)
  else .error (.invalidArgInfo, st)

/-- Model of `state.readBytes`: length-checked copy of `length` bytes. -/
def readBytes (length : Nat) (st : DState) : Except (DErr × DState) (List Nat × DState) :=
  if st.b.length - st.p < length then .error (.endOfInputBytes, st)
  else .ok ((st.b.drop st.p).take length, ⟨st.b, st.p + length⟩)

/-- Model of `state.readString`: `readBytes` then UTF-8 validation (the cursor has
already advanced past the bytes when validation fails). -/
def readString (length : Nat) (st : DState) : Except (DErr × DState) (List Nat × DState) :=
  match readBytes length st with
  | .error e => .error e
  | .ok (bs, st1) => if utf8Valid bs then .ok (bs, st1) else .error (.invalidUtf8, st1)

/-- Model of `state.readTypeInfo`: one prelude byte split into major type and info. -/
def readTypeInfo (st : DState) : Except (DErr × DState) ((Nat × Nat) × DState) :=
  match readUint8 st with
  | .error e => .error e
  | .ok (b, st1) => .ok ((b / 32, b % 32), st1)

/-- The validation `state.readCid` performs on the tagged content after its
bounds check: a `0x00` marker byte, at least one byte after it, and the rest
re-parsed through the CID module's text form. -/
def cidContentCheck (content : List Nat) : Except DErr (List Nat) :=
  match content with
  | [] => .error .cidBadMarker
  | marker :: rest =>
    if marker ≠ 0 then .error .cidBadMarker
    else if rest.length = 0 then .error .cidShortLen
    else
      match cidParse (cidLinkStr rest) with
      | .error e => .error (.cidInvalid e)
      | .ok _ => .ok rest

/-- Model of `state.readCid`: zero-length check, bounds check, then content
validation; on success the value is the CID's raw bytes. -/
def readCid (length : Nat) (st : DState) : Except (DErr × DState) (Val × DState) :=
  if length = 0 then .error (.cidLenZero, st)
  else if st.b.length < st.p + length then .error (.cidEof, st)
  else
    match cidContentCheck ((st.b.drop st.p).take length) with
    | .error e => .error (e, st)
    | .ok bs => .ok (.vCid bs, ⟨st.b, st.p + length⟩)

/-- An open container on the decoder's stack (`type container struct`):
either an array with its collected elements and remaining count, or a map
with its collected pairs, the pending key, the previous accepted key's bytes,
and the remaining count (pairs × 2). -/
inductive Cont where
  | arr (elems : List Val) (rem : Nat)
  | map (elems : List (List Nat × Val)) (curr : Option (List Nat))
      (prev : Option (List Nat)) (rem : Nat)

/-- Model of `container.isMap`. -/
def Cont.isMapC : Cont → Bool
  | .arr .. => false
  | .map .. => true

/-- The DAG-CBOR key-ordering check `DecodeFirst` runs on each new map key
against the previous accepted key: shorter keys, duplicate keys, and
equal-length lexicographically smaller keys are rejected, each with its own
diagnostic. -/
def checkMapKey (prev cur : List Nat) : Option DErr :=
  if cur.length < prev.length then some .keyShorter
  else if cur.length = prev.length then
    match listCompare cur prev with
    | .eq => some .keyDuplicate
    | .lt => some .keyLexSmaller
    | .gt => none
  else none

/-- Result of draining a completed value into the container stack. -/
inductive FeedRes where
  | more (stack : List Cont) (cv : Val)
  | done (v : Val)

/-- The `for stack != nil` drain loop of `DecodeFirst`: feed a completed
value into the top container (as array element, map key, or map value),
closing containers whose remaining count reaches zero and feeding the closed
collection into its parent; with an empty stack the main loop just breaks
with the value as the result.  `more` carries the stack to continue with and
the value `currVal` holds at that point. -/
def feed (v : Val) : List Cont → Except DErr FeedRes
  | [] => .ok (.done v)
  | .arr elems rem :: rest =>
    let elems2 := elems ++ [v]
    if rem - 1 = 0 then feed (.vArr elems2) rest
    else .ok (.more (.arr elems2 (rem - 1) :: rest) v)
  | .map elems curr prev rem :: rest =>
    match curr with
    | none =>
      match v with
      | .vString s =>
        match prev with
        | some pk =>
          match checkMapKey pk s with
          | some e => .error e
          | none =>
            if rem - 1 = 0 then feed (.vMap elems) rest
            else .ok (.more (.map elems (some s) (some s) (rem - 1) :: rest) v)
        | none =>
          if rem - 1 = 0 then feed (.vMap elems) rest
          else .ok (.more (.map elems (some s) (some s) (rem - 1) :: rest) v)
      | _ => .error .mapKeyNotString
    | some k =>
      let elems2 := elems ++ [(k, v)]
      if rem - 1 = 0 then feed (.vMap elems2) rest
      else .ok (.more (.map elems2 none prev (rem - 1) :: rest) v)

/-- One item read from the stream: either a completed scalar/empty-container
value, or a newly opened container to push. -/
inductive Item where
  | push (c : Cont)
  | scalar (v : Val)

/-- The per-item body of `DecodeFirst`'s main loop, after the type byte and
argument have been read. -/
def itemStep (mt info arg : Nat) (st : DState) : Except (DErr × DState) (Item × DState) :=
  match mt with
  | 0 => .ok (.scalar (.vUInt arg), st)
  | 1 => .ok (.scalar (.vInt (-1 - toInt64 arg)), st)
  | 2 =>
    match readBytes arg st with
    | .error e => .error e
    | .ok (bs, st1) => .ok (.scalar (.vBytes bs), st1)
  | 3 =>
    match readString arg st with
    | .error e => .error e
    | .ok (bs, st1) => .ok (.scalar (.vString bs), st1)
  | 4 => if arg > 0 then .ok (.push (.arr [] arg), st) else .ok (.scalar (.vArr []), st)
  | 5 =>
    if arg > 0 then .ok (.push (.map [] none none (arg * 2)), st)
    else .ok (.scalar (.vMap []), st)
  | 6 =>
    if arg = 42 then
      match readTypeInfo st with
      | .error e => .error e
      | .ok ((cmt, cinfo), st1) =>
        if cmt ≠ 2 then .error (.tagContentNotBytes, st1)
        else
          match readArgument cinfo st1 with
          | .error e => .error e
          | .ok (carg, st2) =>
            match readCid carg st2 with
            | .error e => .error e
            | .ok (v, st3) => .ok (.scalar v, st3)
    else .error (.unsupportedTag, st)
  | 7 =>
    match info with
    | 20 => .ok (.scalar (.vBool false), st)
    | 21 => .ok (.scalar (.vBool true), st)
    | 22 => .ok (.scalar .vNull, st)
    | 27 =>
      match readFloat64 st with
      | .error e => .error e
      | .ok (bits, st1) => .ok (.scalar (.vFloat bits), st1)
    | _ => .error (.invalidSimple, st)
  | _ => .error (.internalBadMajor, st)

/-- The main loop of `DecodeFirst`.  The loop runs while `s.p < len(s.b)`;
when the condition fails — even with containers still open — the source
returns `currVal` with a nil error, which this model reproduces.  Each
iteration consumes at least one byte, so fuel `len(buf) + 1` never runs out. -/
def loopD : Nat → DState → List Cont → Val → Val × List Nat × Option DErr
  | 0, st, _, cv => (cv, st.b.drop st.p, none)
  | fuel + 1, st, stack, cv =>
    if st.b.length ≤ st.p then (cv, st.b.drop st.p, none)
    else
      match readTypeInfo st with
      | .error (e, st1) => (.vNull, st1.b.drop st1.p, some e)
      | .ok ((mt, info), st1) =>
        match (if mt < 7 then readArgument info st1 else .ok (0, st1)) with
        | .error (e, st2) => (.vNull, st2.b.drop st2.p, some e)
        | .ok (arg, st2) =>
          match itemStep mt info arg st2 with
          | .error (e, st3) => (.vNull, st3.b.drop st3.p, some e)
          | .ok (.push c, st3) => loopD fuel st3 (c :: stack) (.vOpenRef c.isMapC)
          | .ok (.scalar v, st3) =>
            match feed v stack with
            | .error e => (.vNull, st3.b.drop st3.p, some e)
            | .ok (.done v2) => (v2, st3.b.drop st3.p, none)
            | .ok (.more stack2 cv2) => loopD fuel st3 stack2 cv2

/-- Model of `cbor.DecodeFirst`: decode one top-level item, returning the value, the
unconsumed remainder and the error slot. -/
def decodeFirst (buf : List Nat) : Val × List Nat × Option DErr :=
  if buf.length = 0 then (.vNull, [], some .emptyInput)
  else loopD (buf.length + 1) ⟨buf, 0⟩ [] .vNull

/-- Errors of `cbor.Decode`: either an error of `DecodeFirst` or the distinct
trailing-data error carrying the remaining byte count. -/
inductive DecodeErr where
  | inner (e : DErr)
  | trailing (n : Nat)
  deriving DecidableEq, Repr

/-- Model of `cbor.Decode`: `DecodeFirst`, then fail if bytes remain — note the source
returns the decoded value alongside the trailing-data error, while every
other error path returns a nil value. -/
def decodeCbor (buf : List Nat) : Val × Option DecodeErr :=
  match decodeFirst buf with
  | (_, _, some e) => (.vNull, some (.inner e))
  | (v, rmd, none) => if rmd.length ≠ 0 then (v, some (.trailing rmd.length)) else (v, none)

end Grove

namespace Grove

set_option maxRecDepth 100000

/-- Bytes of a text string, for stating claims about concrete inputs. -/
def asciiOf (s : String) : List Nat := s.data.map Char.toNat

/-- The sorted base32 alphabet `"234567abcdefghijklmnopqrstuvwxyz"` that the
spec names for CID text parsing (byte values). -/
def alphaSorted : List Nat :=
  [50, 51, 52, 53, 54, 55, 97, 98, 99, 100, 101, 102, 103, 104, 105, 106, 107,
   108, 109, 110, 111, 112, 113, 114, 115, 116, 117, 118, 119, 120, 121, 122]

/-- The CID text parse exactly as the spec words it, for refinement
comparison with `cidParse`: leading `'b'`, length 8 or 59, remainder decoded
as unpadded base32 over the sorted alphabet `"234567abcdefghijklmnopqrstuvwxyz"`,
then version 1, codec `0x55`/`0x71`, hash type `0x12`, digest length byte 0
or 32, and no trailing bytes beyond the declared digest length. -/
def parseSpecSorted (s : List Nat) : Option Cid :=
  if s.head? = some 98 ∧ (s.length = 8 ∨ s.length = 59) then
    match b32DecodeWith alphaSorted (s.drop 1) with
    | none => none
    | some bs =>
      match bs with
      | v :: cdc :: ht :: ds :: rest =>
        if v = 1 ∧ (cdc = 0x55 ∨ cdc = 0x71) ∧ ht = 0x12 ∧ (ds = 0 ∨ ds = 32) ∧
            rest.length = ds then
          some ⟨v, cdc, ht, rest, bs⟩
        else none
      | _ => none
  else none

/-- The canonical strict key order of the spec, stated independently of the
decoder: shorter byte length first, then ascending byte-wise lexicographic. -/
def keyLtSpec (prev cur : List Nat) : Prop :=
  prev.length < cur.length ∨ (prev.length = cur.length ∧ List.Lex (· < ·) prev cur)

example : asciiOf "b" = [98] := by decide

example : alphaRfc = asciiOf "abcdefghijklmnopqrstuvwxyz234567" := by decide

example : b32Decode (asciiOf "afyreaa") = some [1, 113, 18, 0] := by decide

example : (cidParse (asciiOf "bafyreaa")).isOk = true := by decide

example :
    sha256 (asciiOf "abc") =
      [0xba, 0x78, 0x16, 0xbf, 0x8f, 0x01, 0xcf, 0xea, 0x41, 0x41, 0x40, 0xde,
       0x5d, 0xae, 0x22, 0x23, 0xb0, 0x03, 0x61, 0xa3, 0x96, 0x17, 0x7a, 0x9c,
       0xb4, 0x10, 0xff, 0x61, 0xf2, 0x00, 0x15, 0xad] := by decide

example : decodeFirst [0x01] = (.vUInt 1, [], none) := by rfl

example : decodeCbor [0x81] = (.vOpenRef false, none) := by rfl

example : decodeCbor [0x81, 0x01] = (.vArr [.vUInt 1], none) := by rfl

example : decodeCbor [0x82, 0x01] = (.vUInt 1, none) := by rfl

example : decodeCbor [0x19, 0x00, 0xff] = (.vUInt 255, none) := by rfl

example : decodeCbor [0x19, 0x00, 0xfe] = (.vNull, some (.inner .notMinimal)) := by rfl

example : decodeCbor [0x01, 0x02] = (.vUInt 1, some (.trailing 1)) := by rfl

example :
    decodeCbor [0xa2, 0x62, 98, 98, 0x01, 0x61, 97, 0x02] =
      (.vNull, some (.inner .keyShorter)) := by rfl

example :
    decodeCbor [0xa2, 0x61, 97, 0x01, 0x61, 97, 0x02] =
      (.vNull, some (.inner .keyDuplicate)) := by rfl

example :
    decodeCbor [0xa2, 0x61, 97, 0x01, 0x61, 98, 0x02] =
      (.vMap [([97], .vUInt 1), ([98], .vUInt 2)], none) := by rfl

example :
    decodeCbor [0xd8, 0x2a, 0x45, 0x00, 0x01, 0x71, 0x12, 0x00] =
      (.vCid [1, 113, 18, 0], none) := by rfl

example :
    decodeCbor (encodeCbor (.cons [98] (.eUInt 2) (.cons [97] (.eUInt 1) .nil))) =
      (.vNull, some (.inner .keyLexSmaller)) := by rfl

example :
    encodeCbor (.cons [97] (.eUInt 1) .nil) = [0xa1, 0x61, 97, 0x01] := by rfl

example :
    (cidCreate 0x71 (asciiOf "abc")).map cidStr =
      .ok (asciiOf "bafyreif2pall7dybz7vecqka3zo24irdwabwdi4wc55jznaq75q7eaavvu") := by
  decide

example :
    cidParse (asciiOf "bafyreihffx5a2e7k5uwrmmgofbvzujc5cmw5h4espouwuxt3liqoflx3ee") =
      .ok ⟨1, 113, 18,
        [229, 45, 250, 13, 19, 234, 237, 45, 22, 48, 206, 40, 107, 154, 36, 93,
         19, 45, 211, 240, 146, 123, 169, 106, 94, 123, 90, 32, 226, 174, 251, 33],
        [1, 113, 18, 32, 229, 45, 250, 13, 19, 234, 237, 45, 22, 48, 206, 40, 107,
         154, 36, 93, 19, 45, 211, 240, 146, 123, 169, 106, 94, 123, 90, 32, 226,
         174, 251, 33]⟩ := by decide

/-! ## Helper lemmas -/

/-- The comparison `listCompare` answers `.eq` exactly on equal lists. -/
theorem listCompare_eq_iff : ∀ a b : List Nat, listCompare a b = .eq ↔ a = b
  | [], [] => by simp [listCompare]
  | [], _ :: _ => by simp [listCompare]
  | _ :: _, [] => by simp [listCompare]
  | a :: as_, b :: bs => by
    by_cases hab : a < b
    · have h1 : listCompare (a :: as_) (b :: bs) = .lt := by simp [listCompare, hab]
      rw [h1]
      constructor
      · intro h; exact Ordering.noConfusion h
      · intro h; cases h; omega
    · by_cases hba : b < a
      · have h1 : listCompare (a :: as_) (b :: bs) = .gt := by simp [listCompare, hab, hba]
        rw [h1]
        constructor
        · intro h; exact Ordering.noConfusion h
        · intro h; cases h; omega
      · have hb : a = b := by omega
        subst hb
        have h1 : listCompare (a :: as_) (a :: bs) = listCompare as_ bs := by
          simp [listCompare]
        rw [h1, listCompare_eq_iff as_ bs]
        simp

/-- The comparison `listCompare` answers `.lt` exactly on the lexicographic strict order. -/
theorem listCompare_lt_iff : ∀ a b : List Nat, listCompare a b = .lt ↔ List.Lex (· < ·) a b
  | [], [] => by
    simp only [listCompare]
    constructor
    · intro h; exact Ordering.noConfusion h
    · intro h; cases h
  | [], _ :: _ => by
    constructor
    · intro _; exact .nil
    · intro _; rfl
  | _ :: _, [] => by
    simp only [listCompare]
    constructor
    · intro h; exact Ordering.noConfusion h
    · intro h; cases h
  | a :: as_, b :: bs => by
    by_cases hab : a < b
    · have h1 : listCompare (a :: as_) (b :: bs) = .lt := by simp [listCompare, hab]
      rw [h1]
      exact iff_of_true rfl (.rel hab)
    · by_cases hba : b < a
      · have h1 : listCompare (a :: as_) (b :: bs) = .gt := by simp [listCompare, hab, hba]
        rw [h1]
        constructor
        · intro h; exact Ordering.noConfusion h
        · intro h
          cases h with
          | cons h2 => omega
          | rel h2 => omega
      · have hb : a = b := by omega
        subst hb
        have h1 : listCompare (a :: as_) (a :: bs) = listCompare as_ bs := by
          simp [listCompare]
        rw [h1, listCompare_lt_iff as_ bs]
        constructor
        · intro h; exact .cons h
        · intro h
          cases h with
          | cons h2 => exact h2
          | rel h2 => omega

/-- Flipping the arguments of `listCompare` swaps the answer. -/
theorem listCompare_flip : ∀ a b : List Nat, listCompare b a = (listCompare a b).swap
  | [], [] => by simp [listCompare, Ordering.swap]
  | [], _ :: _ => by simp [listCompare, Ordering.swap]
  | _ :: _, [] => by simp [listCompare, Ordering.swap]
  | a :: as_, b :: bs => by
    by_cases hab : a < b
    · have hba : ¬b < a := by omega
      simp [listCompare, hab, hba, Ordering.swap]
    · by_cases hba : b < a
      · simp [listCompare, hab, hba, Ordering.swap]
      · have : a = b := by omega
        subst this
        simp [listCompare, hab, hba, listCompare_flip as_ bs]

/-- Reassembling the eight bit flags of a byte below 256 gives the byte back. -/
theorem bitsToByte_byteBits : ∀ b : Nat, b < 256 →
    bitsToByte (decide (b / 128 % 2 = 1)) (decide (b / 64 % 2 = 1))
      (decide (b / 32 % 2 = 1)) (decide (b / 16 % 2 = 1)) (decide (b / 8 % 2 = 1))
      (decide (b / 4 % 2 = 1)) (decide (b / 2 % 2 = 1)) (decide (b % 2 = 1)) = b := by
  decide

/-- The function `bitsToBytes` peels one leading byte off the bit stream. -/
theorem bitsToBytes_byteBits (b : Nat) (h : b < 256) (r : List Bool) :
    bitsToBytes (byteBits b ++ r) = b :: bitsToBytes r := by
  simp only [byteBits, List.cons_append, List.nil_append, bitsToBytes]
  rw [bitsToByte_byteBits b h]
  simp

/-- Bytes below 256 survive the round trip through the bit stream. -/
theorem bytesToBits_roundtrip : ∀ bs : List Nat, (∀ b ∈ bs, b < 256) →
    bitsToBytes (bytesToBits bs) = bs
  | [], _ => rfl
  | b :: t, h => by
    simp only [bytesToBits]
    rw [bitsToBytes_byteBits b (h b (by simp)),
      bytesToBits_roundtrip t (fun x hx => h x (by simp [hx]))]

/-- The bit stream of a byte sequence has eight bits per byte. -/
theorem bytesToBits_length : ∀ bs : List Nat, (bytesToBits bs).length = 8 * bs.length
  | [] => rfl
  | b :: t => by
    simp only [bytesToBits, byteBits, List.length_append, List.length_cons,
      List.length_nil, bytesToBits_length t]
    omega

/-- A 5-bit group value stays below 32. -/
theorem v5_lt32 : ∀ a b c d e : Bool, v5 a b c d e < 32 := by decide

/-- The five bit flags of a 5-bit group value are the group itself. -/
theorem valBits5_v5 : ∀ a b c d e : Bool, valBits5 (v5 a b c d e) = [a, b, c, d, e] := by
  decide

/-- On bit streams whose length is a multiple of five, `exactVals` is a
faithful 5-bit grouping: reassembling gives the stream back, the group count
is a fifth of the bit count, and every group value is below 32. -/
theorem exactVals_spec : ∀ l : List Bool, l.length % 5 = 0 →
    valsToBits (exactVals l) = l ∧ (exactVals l).length = l.length / 5 ∧
      (∀ v ∈ exactVals l, v < 32)
  | [], _ => ⟨rfl, rfl, by simp [exactVals]⟩
  | [_], h => by simp at h
  | [_, _], h => by simp at h
  | [_, _, _], h => by simp at h
  | [_, _, _, _], h => by simp at h
  | a :: b :: c :: d :: e :: t, h => by
    have ht : t.length % 5 = 0 := by
      simp only [List.length_cons] at h
      omega
    obtain ⟨ih1, ih2, ih3⟩ := exactVals_spec t ht
    refine ⟨?_, ?_, ?_⟩
    · simp only [exactVals, valsToBits, valBits5_v5, ih1, List.cons_append,
        List.nil_append]
    · simp only [exactVals, List.length_cons, ih2]
      omega
    · intro v hv
      simp only [exactVals, List.mem_cons] at hv
      rcases hv with rfl | hv
      · exact v5_lt32 a b c d e
      · exact ih3 v hv

/-- Looking an alphabet character back up recovers its 5-bit value. -/
theorem alphaRfc_idx : ∀ v : Nat, v < 32 →
    alphaIdx alphaRfc (alphaRfc.getD v 0) = some v := by decide

/-- No character of the CID alphabet is CR or LF, so stripping keeps it. -/
theorem alphaRfc_not_crlf : ∀ v : Nat, v < 32 →
    (!(alphaRfc.getD v 0 == 13) && !(alphaRfc.getD v 0 == 10)) = true := by decide

/-- Mapping 5-bit values to characters and back is the identity. -/
theorem idxAll_map_charOf : ∀ vs : List Nat, (∀ v ∈ vs, v < 32) →
    idxAll alphaRfc (vs.map (fun v => alphaRfc.getD v 0)) = some vs
  | [], _ => rfl
  | v :: t, h => by
    simp only [List.map_cons, idxAll]
    rw [alphaRfc_idx v (h v (by simp)),
      idxAll_map_charOf t (fun x hx => h x (by simp [hx]))]

/-- CR/LF stripping leaves a text of alphabet characters unchanged. -/
theorem filter_map_charOf (vs : List Nat) (h : ∀ v ∈ vs, v < 32) :
    (vs.map (fun v => alphaRfc.getD v 0)).filter (fun c => !(c == 13) && !(c == 10)) =
      vs.map (fun v => alphaRfc.getD v 0) := by
  apply List.filter_eq_self.mpr
  intro a ha
  simp only [List.mem_map] at ha
  obtain ⟨v, hv, rfl⟩ := ha
  exact alphaRfc_not_crlf v (h v hv)

/-- The base32 text of a 36-byte sequence has 58 characters. -/
theorem b32Encode_length36 (bs : List Nat) (hlen : bs.length = 36) :
    (b32Encode bs).length = 58 := by
  unfold b32Encode b32EncodeWith
  rw [List.length_map, hlen]
  have hfl : (bytesToBits bs ++ List.replicate 2 false).length = 290 := by
    rw [List.length_append, bytesToBits_length, hlen]
    rfl
  obtain ⟨_, h2, _⟩ := exactVals_spec _ (by rw [hfl])
  rw [show (5 - 36 * 8 % 5) % 5 = 2 from rfl, h2, hfl]

/-- Go's base32 codec round-trips every 36-byte sequence. -/
theorem b32_roundtrip36 (bs : List Nat) (hlen : bs.length = 36)
    (hb : ∀ b ∈ bs, b < 256) : b32Decode (b32Encode bs) = some bs := by
  have hfl : (bytesToBits bs ++ List.replicate 2 false).length = 290 := by
    rw [List.length_append, bytesToBits_length, hlen]
    rfl
  obtain ⟨h1, h2, h3⟩ := exactVals_spec _ (by rw [hfl])
  have hvals_len : (exactVals (bytesToBits bs ++ List.replicate 2 false)).length = 58 := by
    rw [h2, hfl]
  unfold b32Encode b32EncodeWith b32Decode b32DecodeWith
  rw [hlen, show (5 - 36 * 8 % 5) % 5 = 2 from rfl]
  rw [filter_map_charOf _ h3]
  unfold b32DecodeStripped
  rw [List.length_map, hvals_len]
  rw [if_neg (by norm_num)]
  rw [idxAll_map_charOf _ h3]
  show some (bitsToBytes ((valsToBits
      (exactVals (bytesToBits bs ++ List.replicate 2 false))).take (58 * 5 / 8 * 8))) =
    some bs
  rw [h1]
  have h8 : (bytesToBits bs).length = 288 := by rw [bytesToBits_length, hlen]
  rw [show 58 * 5 / 8 * 8 = 288 from rfl, ← h8, List.take_left,
    bytesToBits_roundtrip bs hb]

/-- One SHA-256 round always yields an 8-word state. -/
theorem roundStep_length (s : List Nat) (kw : Nat × Nat) : (roundStep s kw).length = 8 :=
  rfl

/-- Folding rounds preserves the 8-word state shape. -/
theorem foldl_roundStep_length : ∀ (l : List (Nat × Nat)) (s : List Nat),
    s.length = 8 → (l.foldl roundStep s).length = 8
  | [], _, h => h
  | x :: t, s, _ => foldl_roundStep_length t (roundStep s x) rfl

/-- A SHA-256 block step preserves the 8-word hash state. -/
theorem shaBlock_length (h bl : List Nat) (hh : h.length = 8) :
    (shaBlock h bl).length = 8 := by
  unfold shaBlock
  rw [List.length_map, List.length_zip,
    foldl_roundStep_length _ _ hh, hh]
  simp

/-- Folding block steps preserves the 8-word hash state. -/
theorem foldl_shaBlock_length : ∀ (l : List (List Nat)) (s : List Nat),
    s.length = 8 → (l.foldl shaBlock s).length = 8
  | [], _, h => h
  | x :: t, s, h => foldl_shaBlock_length t _ (shaBlock_length s x h)

/-- Serializing hash words gives four bytes per word. -/
theorem flatten_wordBytes_length : ∀ hs : List Nat,
    ((hs.map wordBytes).flatten).length = 4 * hs.length
  | [] => rfl
  | w :: t => by
    simp only [List.map_cons, List.flatten_cons, List.length_append,
      flatten_wordBytes_length t, List.length_cons]
    simp [wordBytes, be4]
    omega

/-- A SHA-256 digest has 32 bytes. -/
theorem sha256_length (m : List Nat) : (sha256 m).length = 32 := by
  have h8 : ((shaChunks ((shaPad m).length / 64) (shaPad m)).foldl shaBlock shaH0).length = 8 :=
    foldl_shaBlock_length _ shaH0 rfl
  unfold sha256
  rw [flatten_wordBytes_length, h8]

/-- Every byte of a SHA-256 digest is below 256. -/
theorem sha256_lt (m : List Nat) : ∀ b ∈ sha256 m, b < 256 := by
  intro b hb
  unfold sha256 at hb
  simp only [List.mem_flatten, List.mem_map] at hb
  obtain ⟨l, ⟨w, _, rfl⟩, hbl⟩ := hb
  simp only [wordBytes, be4, List.mem_cons, List.not_mem_nil, or_false] at hbl
  rcases hbl with rfl | rfl | rfl | rfl
  · exact Nat.mod_lt _ (by norm_num)
  · exact Nat.mod_lt _ (by norm_num)
  · exact Nat.mod_lt _ (by norm_num)
  · exact Nat.mod_lt _ (by norm_num)

/-- The model of `cid.decode` succeeds exactly on byte sequences with version byte 1,
codec byte `0x55` or `0x71`, hash-type byte `0x12`, and digest-length byte 0
with nothing after the header or 32 with exactly 32 digest bytes. -/
theorem cidDecode_ok_iff : ∀ bs : List Nat,
    (∃ c, cidDecode bs = .ok c) ↔
      (bs[0]? = some 1 ∧ (bs[1]? = some 0x55 ∨ bs[1]? = some 0x71) ∧
        bs[2]? = some 0x12 ∧
        ((bs[3]? = some 0 ∧ bs.length = 4) ∨ (bs[3]? = some 32 ∧ bs.length = 36)))
  | [] => by
    constructor
    · intro ⟨c, h⟩; exact Except.noConfusion h
    · intro ⟨h, _⟩; simp at h
  | [v] => by
    constructor
    · intro ⟨c, h⟩; exact Except.noConfusion h
    · intro ⟨_, h, _⟩
      rcases h with h | h <;> simp at h
  | [v, a] => by
    constructor
    · intro ⟨c, h⟩; exact Except.noConfusion h
    · intro ⟨_, _, h, _⟩; simp at h
  | [v, a, b] => by
    constructor
    · intro ⟨c, h⟩; exact Except.noConfusion h
    · intro ⟨_, _, _, h⟩
      rcases h with ⟨h, _⟩ | ⟨h, _⟩ <;> simp at h
  | v :: cdc :: ht :: ds :: rest => by
    simp only [List.getElem?_cons_zero, List.getElem?_cons_succ, List.length_cons,
      Option.some.injEq]
    by_cases hv : v = 1
    · subst hv
      by_cases hcdc : cdc ≠ 0x55 ∧ cdc ≠ 0x71
      · rw [show cidDecode (1 :: cdc :: ht :: ds :: rest) = .error .badCodec from by
          simp [cidDecode, hcdc]]
        constructor
        · intro ⟨c, h⟩; exact Except.noConfusion h
        · intro ⟨_, h, _⟩
          rcases h with h | h <;> omega
      · have hcdc2 : cdc = 0x55 ∨ cdc = 0x71 := by
          rcases not_and_or.mp hcdc with h | h <;> omega
        by_cases hht : ht = 0x12
        · subst hht
          by_cases hds : ds ≠ 32 ∧ ds ≠ 0
          · rw [show cidDecode (1 :: cdc :: 0x12 :: ds :: rest) = .error .badDigestSize from by
              simp [cidDecode, hcdc, hds]]
            constructor
            · intro ⟨c, h⟩; exact Except.noConfusion h
            · intro ⟨_, _, _, h⟩
              rcases h with ⟨h, _⟩ | ⟨h, _⟩ <;> omega
          · have hds2 : ds = 32 ∨ ds = 0 := by
              rcases not_and_or.mp hds with h | h <;> omega
            by_cases hlen : (1 :: cdc :: 0x12 :: ds :: rest).length < 4 + ds
            · rw [show cidDecode (1 :: cdc :: 0x12 :: ds :: rest) = .error .tooShort from by
                simp only [cidDecode]
                rw [if_neg (by omega), if_neg (by omega), if_neg (by omega),
                  if_neg (by omega), if_pos hlen]]
              constructor
              · intro ⟨c, h⟩; exact Except.noConfusion h
              · intro ⟨_, _, _, h⟩
                simp only [List.length_cons] at hlen
                rcases h with ⟨h, hl⟩ | ⟨h, hl⟩ <;> omega
            · by_cases hdrop : rest.drop ds ≠ []
              · rw [show cidDecode (1 :: cdc :: 0x12 :: ds :: rest) = .error .trailingBytes from by
                  simp only [cidDecode]
                  rw [if_neg (by omega), if_neg (by omega), if_neg (by omega),
                    if_neg (by omega), if_neg hlen, if_pos hdrop]]
                have hgt : ds < rest.length := by
                  rcases Nat.lt_or_ge ds rest.length with h | h
                  · exact h
                  · exact absurd (List.drop_eq_nil_iff.mpr h) hdrop
                constructor
                · intro ⟨c, h⟩; exact Except.noConfusion h
                · intro ⟨_, _, _, h⟩
                  simp only [List.length_cons] at hlen
                  rcases h with ⟨h, hl⟩ | ⟨h, hl⟩ <;> omega
              · have hnil : rest.drop ds = [] := not_not.mp hdrop
                have hle : rest.length ≤ ds := List.drop_eq_nil_iff.mp hnil
                simp only [List.length_cons, not_lt] at hlen
                rw [show cidDecode (1 :: cdc :: 0x12 :: ds :: rest) =
                    .ok ⟨1, cdc, 0x12, rest.take ds,
                      (1 :: cdc :: 0x12 :: ds :: rest).take (4 + ds)⟩ from by
                  simp only [cidDecode]
                  rw [if_neg (by omega), if_neg (by omega), if_neg (by omega),
                    if_neg (by omega), if_neg (by simp only [List.length_cons]; omega),
                    if_neg hdrop]]
                constructor
                · intro _
                  refine ⟨rfl, by omega, rfl, ?_⟩
                  rcases hds2 with h | h
                  · right; exact ⟨h, by omega⟩
                  · left; exact ⟨h, by omega⟩
                · intro _
                  exact ⟨⟨1, cdc, 0x12, rest.take ds,
                    (1 :: cdc :: 0x12 :: ds :: rest).take (4 + ds)⟩, rfl⟩
        · rw [show cidDecode (1 :: cdc :: ht :: ds :: rest) = .error .badHashType from by
            simp [cidDecode, hht]
            omega]
          constructor
          · intro ⟨c, h⟩; exact Except.noConfusion h
          · intro ⟨_, _, h, _⟩; omega
    · rw [show cidDecode (v :: cdc :: ht :: ds :: rest) = .error .badVersion from by
        simp [cidDecode, hv]]
      constructor
      · intro ⟨c, h⟩; exact Except.noConfusion h
      · intro ⟨h, _⟩; omega

/-! ## Claims -/

/-- C1: the claim says `Encode` sorts map keys into the canonical order
before writing, so any iteration order yields byte-identical output.  The
source's `writeAny` writes the pairs in the order `range` yields them and
contains no sorting step: supplying the logical mapping
`{"a": 1, "b": 2}` in iteration order `b, a` produces output with keys in
the order `b, a` — different bytes than the `a, b` order, and not
canonically sorted. -/
theorem c1_encode_map_not_sorted :
    encodeCbor (.cons [98] (.eUInt 2) (.cons [97] (.eUInt 1) .nil)) =
      [0xa2, 0x61, 98, 0x02, 0x61, 97, 0x01] ∧
    encodeCbor (.cons [97] (.eUInt 1) (.cons [98] (.eUInt 2) .nil)) =
      [0xa2, 0x61, 97, 0x01, 0x61, 98, 0x02] ∧
    encodeCbor (.cons [98] (.eUInt 2) (.cons [97] (.eUInt 1) .nil)) ≠
      encodeCbor (.cons [97] (.eUInt 1) (.cons [98] (.eUInt 2) .nil)) := by
  refine ⟨rfl, rfl, ?_⟩
  decide

/-- C2: the claim says removing the final byte of any accepted encoding makes
`Decode` fail with a bounds error and that no truncated value is ever
returned with a nil error.  The source's main loop simply exits when the
input runs out, even with containers still open: `[0x81, 0x01]` (the array
`[1]`) is accepted, but its one-byte truncation `[0x81]` is also accepted,
returning the pointer to the still-open empty array with a nil error, and
the truncation `[0x82, 0x01]` of `[0x82, 0x01, 0x02]` is accepted, returning
the bare element `1` with a nil error. -/
theorem c2_truncated_input_accepted :
    decodeCbor [0x81, 0x01] = (.vArr [.vUInt 1], none) ∧
    decodeCbor [0x81] = (.vOpenRef false, none) ∧
    decodeCbor [0x82, 0x01, 0x02] = (.vArr [.vUInt 1, .vUInt 2], none) ∧
    decodeCbor [0x82, 0x01] = (.vUInt 1, none) := ⟨rfl, rfl, rfl, rfl⟩

/-- C3: the claim says selector 25 is rejected for every value `< 256`,
selector 26 for every value `< 65536`, and selector 27 for every value
`< 4294967296`.  The source compares against `math.MaxUint8/16/32`
(255, 65535, 4294967295), so the boundary values 255, 65535 and 4294967295
are accepted in the wider form even though each fits a strictly smaller
encoding; values below the boundary are rejected as the claim says. -/
theorem c3_nonminimal_boundary_accepted :
    decodeCbor [0x19, 0x00, 0xff] = (.vUInt 255, none) ∧
    decodeCbor [0x1a, 0x00, 0x00, 0xff, 0xff] = (.vUInt 65535, none) ∧
    decodeCbor [0x1b, 0x00, 0x00, 0x00, 0x00, 0xff, 0xff, 0xff, 0xff] =
      (.vUInt 4294967295, none) ∧
    decodeCbor [0x18, 0xff] = (.vUInt 255, none) ∧
    decodeCbor [0x19, 0x00, 0xfe] = (.vNull, some (.inner .notMinimal)) ∧
    decodeCbor [0x19, 0x00, 0x0a] = (.vNull, some (.inner .notMinimal)) ∧
    decodeCbor [0x0a] = (.vUInt 10, none) :=
  ⟨rfl, rfl, rfl, rfl, rfl, rfl, rfl⟩

/-- C5: the claim says `Decode(Encode(v))` succeeds and returns `v` for every
top-level map value of the model.  Because the encoder writes map pairs in
iteration order without sorting (C1) while the decoder rejects non-canonical
key order, encoding the map `{"a": 1, "b": 2}` when `range` yields `b`
first produces bytes that `Decode` rejects outright. -/
theorem c5_roundtrip_fails_on_map_order :
    decodeCbor (encodeCbor (.cons [98] (.eUInt 2) (.cons [97] (.eUInt 1) .nil))) =
      (.vNull, some (.inner .keyLexSmaller)) := rfl

/-- C8 counterexample: `Decode` of the two-item input `[0x01, 0x02]` returns
the decoded first item `1` — not a nil value — alongside the distinct
trailing-data error, contradicting the claim that no decoded value is
returned with that error. -/
theorem c8_value_alongside_trailing_error :
    decodeCbor [0x01, 0x02] = (.vUInt 1, some (.trailing 1)) ∧
    Val.vUInt 1 ≠ .vNull :=
  ⟨rfl, fun h => Val.noConfusion h⟩

/-- C8 (amended): with more than one top-level item `Decode` fails with the
distinct trailing-data error, but in that one case it returns the decoded
first item alongside the error; every other error path returns a nil value. -/
theorem c8_trailing_data_error :
    (∀ buf v r, decodeFirst buf = (v, r, none) → r ≠ [] →
      decodeCbor buf = (v, some (.trailing r.length))) ∧
    (∀ buf v r e, decodeFirst buf = (v, r, some e) →
      decodeCbor buf = (.vNull, some (.inner e))) ∧
    (∀ n e, DecodeErr.trailing n ≠ DecodeErr.inner e) ∧
    decodeCbor [0x01, 0x02] = (.vUInt 1, some (.trailing 1)) := by
  refine ⟨?_, ?_, ?_, rfl⟩
  · intro buf v r h hr
    have hlen : r.length ≠ 0 := fun h0 => hr (List.length_eq_zero.mp h0)
    simp [decodeCbor, h, hlen]
  · intro buf v r e h
    simp [decodeCbor, h]
  · intro n e h
    exact DecodeErr.noConfusion h

/-- C8 witness: the amended statement applied to the concrete two-item
input. -/
theorem c8_trailing_data_error_witness :
    decodeCbor [0x01, 0x02] = (.vUInt 1, some (.trailing 1)) :=
  c8_trailing_data_error.1 [0x01, 0x02] (.vUInt 1) [0x02] rfl (by decide)

/-- C4 counterexample: the claim says `Parse` decodes the remainder with the
sorted alphabet `"234567abcdefghijklmnopqrstuvwxyz"`.  The source builds its
codec from `"abcdefghijklmnopqrstuvwxyz234567"`: on the repository's own
test vector `"bafyreaa"`, `Parse` succeeds while the claim's procedure
(`parseSpecSorted`, the claim modelled word for word) rejects it, because
under the sorted alphabet the decoded version byte is not 1. -/
theorem c4_sorted_alphabet_refuted :
    (cidParse (asciiOf "bafyreaa")).isOk = true ∧
    parseSpecSorted (asciiOf "bafyreaa") = none := by
  constructor <;> decide

/-- C4 (amended): `Parse` accepts a string exactly when it starts with `'b'`,
has exactly 8 or 59 characters, and its remainder decodes as unpadded
lowercase base32 over the alphabet `"abcdefghijklmnopqrstuvwxyz234567"`
(RFC 4648 lowercase, not the sorted TID alphabet) to bytes with version 1,
codec `0x55` or `0x71`, hash type `0x12`, and digest-length byte 0 with
exactly 4 bytes total or 32 with exactly 36 bytes total (no trailing
bytes); any other input yields an error. -/
theorem c4_parse_characterization :
    ∀ s : List Nat,
      (∃ c, cidParse s = .ok c) ↔
        ((s.length = 8 ∨ s.length = 59) ∧ s.head? = some 98 ∧
          ∃ bs, b32Decode (s.drop 1) = some bs ∧
            bs[0]? = some 1 ∧ (bs[1]? = some 0x55 ∨ bs[1]? = some 0x71) ∧
            bs[2]? = some 0x12 ∧
            ((bs[3]? = some 0 ∧ bs.length = 4) ∨
              (bs[3]? = some 32 ∧ bs.length = 36))) := by
  intro s
  by_cases h1 : s.length < 2 ∨ s.head? ≠ some 98
  · rw [show cidParse s = .error .invalidFormat from by
      simp only [cidParse]; rw [if_pos h1]]
    constructor
    · intro ⟨c, h⟩; exact Except.noConfusion h
    · intro ⟨hlen, hhead, _⟩
      rcases h1 with h1 | h1
      · rcases hlen with h | h <;> omega
      · exact absurd hhead h1
  · have hhead : s.head? = some 98 := by
      rcases not_or.mp h1 with ⟨_, h⟩; exact not_not.mp h
    by_cases h2 : s.length ≠ 59 ∧ s.length ≠ 8
    · rw [show cidParse s = .error .invalidLength from by
        simp only [cidParse]; rw [if_neg h1, if_pos h2]]
      constructor
      · intro ⟨c, h⟩; exact Except.noConfusion h
      · intro ⟨hlen, _, _⟩
        rcases hlen with h | h <;> omega
    · have h2b : s.length = 59 ∨ s.length = 8 := by
        rcases not_and_or.mp h2 with h | h <;> omega
      rcases hd : b32Decode (s.drop 1) with _ | bs
      · rw [show cidParse s = .error .b32Corrupt from by
          simp only [cidParse]; rw [if_neg h1, if_neg h2, hd]]
        constructor
        · intro ⟨c, h⟩; exact Except.noConfusion h
        · intro ⟨_, _, bs, h, _⟩
          exact Option.noConfusion h
      · rw [show cidParse s = cidDecode bs from by
          simp only [cidParse]; rw [if_neg h1, if_neg h2, hd]]
        rw [cidDecode_ok_iff bs]
        constructor
        · intro h
          exact ⟨by omega, hhead, bs, rfl, h.1, h.2.1, h.2.2.1, h.2.2.2⟩
        · intro ⟨_, _, bs2, hbs2, h⟩
          simp only [Option.some.injEq] at hbs2
          subst hbs2
          exact h

/-- C6: the decoder's per-key check accepts a new map key exactly when it is
strictly greater than the previous accepted key under the
length-then-lexicographic order; a shorter key, a duplicate key and an
equal-length lexicographically smaller key are rejected with three distinct
diagnostics; end to end, the decoder rejects the map `"bb", "a"`
(longer-then-shorter), rejects a duplicated key, and accepts an in-order
map. -/
theorem c6_map_key_order_enforced :
    (∀ prev cur, checkMapKey prev cur = none ↔ keyLtSpec prev cur) ∧
    (∀ k, checkMapKey k k = some .keyDuplicate) ∧
    (∀ prev cur, cur.length < prev.length → checkMapKey prev cur = some .keyShorter) ∧
    (∀ prev cur, cur.length = prev.length → List.Lex (· < ·) cur prev →
      checkMapKey prev cur = some .keyLexSmaller) ∧
    (DErr.keyDuplicate ≠ .keyShorter ∧ DErr.keyDuplicate ≠ .keyLexSmaller ∧
      DErr.keyShorter ≠ .keyLexSmaller) ∧
    decodeCbor [0xa2, 0x62, 98, 98, 0x01, 0x61, 97, 0x02] =
      (.vNull, some (.inner .keyShorter)) ∧
    decodeCbor [0xa2, 0x61, 97, 0x01, 0x61, 97, 0x02] =
      (.vNull, some (.inner .keyDuplicate)) ∧
    decodeCbor [0xa2, 0x61, 98, 0x01, 0x61, 97, 0x02] =
      (.vNull, some (.inner .keyLexSmaller)) ∧
    decodeCbor [0xa2, 0x61, 97, 0x01, 0x61, 98, 0x02] =
      (.vMap [([97], .vUInt 1), ([98], .vUInt 2)], none) := by
  refine ⟨?_, ?_, ?_, ?_, ⟨by decide, by decide, by decide⟩, rfl, rfl, rfl, rfl⟩
  · intro prev cur
    unfold checkMapKey keyLtSpec
    by_cases h1 : cur.length < prev.length
    · rw [if_pos h1]
      constructor
      · intro h; exact Option.noConfusion h
      · intro h
        rcases h with h | ⟨h, _⟩ <;> omega
    · rw [if_neg h1]
      by_cases h2 : cur.length = prev.length
      · rw [if_pos h2]
        rcases hc : listCompare cur prev with _ | _ | _
        · have hlex : List.Lex (· < ·) cur prev := (listCompare_lt_iff cur prev).mp hc
          have hnp : listCompare prev cur = .gt := by
            rw [listCompare_flip cur prev, hc]; rfl
          constructor
          · intro h; exact Option.noConfusion h
          · intro h
            rcases h with h | ⟨_, h⟩
            · omega
            · have := (listCompare_lt_iff prev cur).mpr h
              rw [hnp] at this; exact Ordering.noConfusion this
        · have he : cur = prev := (listCompare_eq_iff cur prev).mp hc
          subst he
          constructor
          · intro h; exact Option.noConfusion h
          · intro h
            rcases h with h | ⟨_, h⟩
            · omega
            · have := (listCompare_lt_iff cur cur).mpr h
              have h2 : listCompare cur cur = .eq := (listCompare_eq_iff cur cur).mpr rfl
              rw [h2] at this; exact Ordering.noConfusion this
        · have hnp : listCompare prev cur = .lt := by
            rw [listCompare_flip cur prev, hc]; rfl
          exact iff_of_true rfl (Or.inr ⟨h2.symm, (listCompare_lt_iff prev cur).mp hnp⟩)
      · rw [if_neg h2]
        exact iff_of_true rfl (Or.inl (by omega))
  · intro k
    have h2 : listCompare k k = .eq := (listCompare_eq_iff k k).mpr rfl
    simp [checkMapKey, h2]
  · intro prev cur h
    simp [checkMapKey, h]
  · intro prev cur h2 hlex
    have h1 : ¬cur.length < prev.length := by omega
    have hc : listCompare cur prev = .lt := (listCompare_lt_iff cur prev).mpr hlex
    simp [checkMapKey, h1, h2, hc]

/-- C6 witness: the key-order characterization applied to concrete keys. -/
theorem c6_map_key_order_enforced_witness :
    checkMapKey [98, 98] [97] = some .keyShorter ∧
    checkMapKey [98] [97] = some .keyLexSmaller ∧
    checkMapKey [97] [97] = some .keyDuplicate ∧
    checkMapKey [97] [98] = none :=
  ⟨c6_map_key_order_enforced.2.2.1 [98, 98] [97] (by decide),
   c6_map_key_order_enforced.2.2.2.1 [98] [97] rfl (.rel (by decide)),
   c6_map_key_order_enforced.2.1 [97],
   (c6_map_key_order_enforced.1 [97] [98]).mpr (Or.inr ⟨rfl, .rel (by decide)⟩)⟩

/-- C7: a tag-42 item's content passes `readCid`'s validation exactly when
it has at least two bytes, begins with the reserved `0x00` marker, and its
remaining bytes re-parse through the CID module's text form; the accepted
value is exactly those remaining bytes.  End to end: a well-formed link
decodes to its CID bytes, while a non-byte-string content item, a corrupted
(non-zero) marker, and a malformed embedded CID each fail even though the
outer CBOR shape is valid. -/
theorem c7_tag42_link_validation :
    (∀ content, (∃ bs, cidContentCheck content = .ok bs) ↔
      (2 ≤ content.length ∧ content.head? = some 0 ∧
        (cidParse (cidLinkStr (content.drop 1))).isOk = true)) ∧
    (∀ content bs, cidContentCheck content = .ok bs → bs = content.drop 1) ∧
    decodeCbor [0xd8, 0x2a, 0x45, 0x00, 0x01, 0x71, 0x12, 0x00] =
      (.vCid [1, 113, 18, 0], none) ∧
    decodeCbor [0xd8, 0x2a, 0x65, 0x00, 0x01, 0x71, 0x12, 0x00] =
      (.vNull, some (.inner .tagContentNotBytes)) ∧
    decodeCbor [0xd8, 0x2a, 0x45, 0x01, 0x01, 0x71, 0x12, 0x00] =
      (.vNull, some (.inner .cidBadMarker)) ∧
    decodeCbor [0xd8, 0x2a, 0x45, 0x00, 0x02, 0x71, 0x12, 0x00] =
      (.vNull, some (.inner (.cidInvalid .badVersion))) := by
  refine ⟨?_, ?_, rfl, rfl, rfl, rfl⟩
  · intro content
    match content with
    | [] =>
      constructor
      · intro ⟨bs, h⟩; exact Except.noConfusion h
      · intro ⟨h, _⟩; simp at h
    | marker :: rest =>
      by_cases hm : marker = 0
      · subst hm
        by_cases hr : rest.length = 0
        · have : rest = [] := List.length_eq_zero.mp hr
          subst this
          constructor
          · intro ⟨bs, h⟩
            simp [cidContentCheck] at h
          · intro ⟨h, _⟩; simp at h
        · rcases hp : cidParse (cidLinkStr rest) with e | c
          · constructor
            · intro ⟨bs, h⟩
              simp [cidContentCheck, hr, hp] at h
            · intro ⟨_, _, h⟩
              simp only [List.drop_succ_cons, List.drop_zero] at h
              rw [hp] at h
              simp [Except.isOk, Except.toBool] at h
          · constructor
            · intro _
              refine ⟨by simp; omega, rfl, by simp [hp, Except.isOk, Except.toBool]⟩
            · intro _
              exact ⟨rest, by simp [cidContentCheck, hr, hp]⟩
      · constructor
        · intro ⟨bs, h⟩
          simp [cidContentCheck, hm] at h
        · intro ⟨_, h, _⟩
          simp at h
          exact absurd h hm
  · intro content bs h
    match content with
    | [] => exact Except.noConfusion h
    | marker :: rest =>
      by_cases hm : marker = 0
      · subst hm
        by_cases hr : rest.length = 0
        · simp [cidContentCheck, hr] at h
        · rcases hp : cidParse (cidLinkStr rest) with e | c
          · simp [cidContentCheck, hr, hp] at h
          · simp [cidContentCheck, hr, hp] at h
            simp [h]
      · simp [cidContentCheck, hm] at h

/-- C7 witness: the characterization applied to the concrete content of a
well-formed link (the empty-digest CID `[1, 113, 18, 0]`). -/
theorem c7_tag42_link_validation_witness :
    (∃ bs, cidContentCheck [0, 1, 113, 18, 0] = .ok bs) ∧
    [1, 113, 18, 0] = List.drop 1 [0, 1, 113, 18, 0] :=
  ⟨(c7_tag42_link_validation.1 [0, 1, 113, 18, 0]).mpr ⟨by decide, rfl, by decide⟩,
   c7_tag42_link_validation.2.1 [0, 1, 113, 18, 0] [1, 113, 18, 0] rfl⟩

/-- C10: the encoder accepts every float64 bit pattern, always emitting the
header byte `0xFB` followed by the eight big-endian bytes of the IEEE-754
representation — including NaN and infinities, which the decoder's
`readFloat64` then rejects, so such an encoding is not decodable. -/
theorem c10_float_encode_decode :
    (∀ bits, writeAny (.eFloat bits) = 0xfb :: be8 bits) ∧
    (∀ bits, bits < 2 ^ 64 → isNaNBits bits = true →
      readFloat64 ⟨be8 bits, 0⟩ = .error (.floatNaN, ⟨be8 bits, 8⟩)) ∧
    (∀ bits, bits < 2 ^ 64 → isInfBits bits = true →
      readFloat64 ⟨be8 bits, 0⟩ = .error (.floatInf, ⟨be8 bits, 8⟩)) ∧
    encodeCbor (.cons [97] (.eFloat 0x7ff8000000000001) .nil) =
      [0xa1, 0x61, 97, 0xfb, 0x7f, 0xf8, 0, 0, 0, 0, 0, 1] ∧
    decodeCbor (encodeCbor (.cons [97] (.eFloat 0x7ff8000000000001) .nil)) =
      (.vNull, some (.inner .floatNaN)) ∧
    decodeCbor (encodeCbor (.cons [97] (.eFloat 0x7ff0000000000000) .nil)) =
      (.vNull, some (.inner .floatInf)) := by
  have hread : ∀ bits : Nat, bits < 2 ^ 64 →
      readUint64 ⟨be8 bits, 0⟩ = .ok (bits, ⟨be8 bits, 8⟩) := by
    intro bits h
    simp [readUint64, be8, List.getD, beNat8]
    omega
  refine ⟨fun _ => rfl, ?_, ?_, rfl, rfl, rfl⟩
  · intro bits h hnan
    unfold readFloat64
    rw [hread bits h]
    simp [hnan]
  · intro bits h hinf
    have hnan : isNaNBits bits = false := by
      unfold isNaNBits
      unfold isInfBits at hinf
      simp only [Bool.and_eq_true, decide_eq_true_eq] at hinf ⊢
      simp only [Bool.and_eq_false_iff, decide_eq_false_iff_not, ne_eq, Decidable.not_not]
      exact Or.inr hinf.2
    unfold readFloat64
    rw [hread bits h]
    simp [hnan, hinf]

/-- C10 witness: the NaN-rejection statement applied to the canonical NaN
bit pattern. -/
theorem c10_float_encode_decode_witness :
    readFloat64 ⟨be8 0x7ff8000000000001, 0⟩ =
      .error (.floatNaN, ⟨be8 0x7ff8000000000001, 8⟩) :=
  c10_float_encode_decode.2.1 0x7ff8000000000001 (by decide) (by decide)

/-- C9: `Create(dag-cbor, content)` yields a CID whose 36-byte encoding is
`[1, 0x71, 0x12, 32]` followed by the 32-byte SHA-256 digest of the content,
whose text form has 59 characters, and which `Parse` recovers identically
from that text form; for the fixed content `"abc"` the text form is the
fixed string of the repository's test. -/
theorem c9_cid_create_parse_roundtrip :
    (∀ content : List Nat,
      ∃ c, cidCreate 0x71 content = .ok c ∧
        c.bytes.length = 36 ∧
        c.bytes.take 4 = [1, 0x71, 0x12, 32] ∧
        c.bytes.drop 4 = sha256 content ∧
        (cidStr c).length = 59 ∧
        cidParse (cidStr c) = .ok c) ∧
    (cidCreate 0x71 (asciiOf "abc")).map cidStr =
      .ok (asciiOf "bafyreif2pall7dybz7vecqka3zo24irdwabwdi4wc55jznaq75q7eaavvu") := by
  constructor
  · intro content
    have hdl : (sha256 content).length = 32 := sha256_length content
    have hdlt : ∀ b ∈ sha256 content, b < 256 := sha256_lt content
    refine ⟨⟨1, 0x71, 0x12, sha256 content, [1, 0x71, 0x12, 32] ++ sha256 content⟩,
      ?_, ?_, ?_, ?_, ?_, ?_⟩
    · unfold cidCreate cidCreateWith
      rw [if_neg (by omega), if_neg (by omega)]
    · simp [List.length_append, hdl]
    · rw [show (4 : Nat) = ([1, 0x71, 0x12, 32] : List Nat).length from rfl, List.take_left]
    · rw [show (4 : Nat) = ([1, 0x71, 0x12, 32] : List Nat).length from rfl, List.drop_left]
    · show (98 :: b32Encode ([1, 0x71, 0x12, 32] ++ sha256 content)).length = 59
      rw [List.length_cons, b32Encode_length36 _ (by simp [List.length_append, hdl])]
    · have hblen : ([1, 0x71, 0x12, 32] ++ sha256 content).length = 36 := by
        simp [List.length_append, hdl]
      have hblt : ∀ b ∈ [1, 0x71, 0x12, 32] ++ sha256 content, b < 256 := by
        intro b hb
        rcases List.mem_append.mp hb with h | h
        · simp only [List.mem_cons, List.not_mem_nil, or_false] at h
          rcases h with rfl | rfl | rfl | rfl <;> omega
        · exact hdlt b h
      show cidParse (98 :: b32Encode ([1, 0x71, 0x12, 32] ++ sha256 content)) = _
      unfold cidParse
      rw [if_neg (by
        simp only [List.length_cons, List.head?_cons, not_or]
        constructor
        · rw [b32Encode_length36 _ hblen]; omega
        · simp)]
      rw [if_neg (by
        simp only [List.length_cons]
        rw [b32Encode_length36 _ hblen]
        omega)]
      rw [show (98 :: b32Encode ([1, 0x71, 0x12, 32] ++ sha256 content)).drop 1 =
        b32Encode ([1, 0x71, 0x12, 32] ++ sha256 content) from rfl]
      rw [b32_roundtrip36 _ hblen hblt]
      show cidDecode (1 :: 0x71 :: 0x12 :: 32 :: sha256 content) = _
      simp only [cidDecode]
      rw [if_neg (by omega), if_neg (by omega), if_neg (by omega), if_neg (by omega),
        if_neg (by simp only [List.length_cons]; omega),
        if_neg (by
          rw [show (sha256 content).drop 32 = [] from
            List.drop_eq_nil_iff.mpr (by omega)]
          simp)]
      rw [show (sha256 content).take 32 = sha256 content from by
        rw [← hdl, List.take_length]]
      rw [show (1 :: 0x71 :: 0x12 :: 32 :: sha256 content).take (4 + 32) =
          1 :: 0x71 :: 0x12 :: 32 :: sha256 content from by
        rw [show (1 :: 0x71 :: 0x12 :: 32 :: sha256 content) =
          [1, 0x71, 0x12, 32] ++ sha256 content from rfl]
        rw [show 4 + 32 = ([1, (0x71 : Nat), 0x12, 32] ++ sha256 content).length from by
          simp [List.length_append, hdl]]
        rw [List.take_length]]
      rfl
  · decide

end Grove
